import Mathlib

/-
Verification of the agent workflow in lib/agents.py.

The file embeds the agent code shallowly in Lean:
  - the data model (AgentState, partial updates, transcript messages, tool
    calls) mirrors the TypedDict and message classes used by the source;
  - the three step functions, the router and the invoke entry point are
    translated from lib/agents.py;
  - the generic graph executor, the session memory store, the model client
    and the JSON argument parsing are external collaborators not present in
    the source tree; they are modelled from the specification (sections 4.1
    and 6) and documented as such on each definition.
Python None / list values of the pending-tool-calls field are modelled by
Option; Python dict truthiness is made explicit at each use site.
-/

namespace UdaPlay

/-- The function part of a tool call record: a tool name and the serialized
(JSON text) arguments, mirroring call.function in the source. -/
structure ToolFunction where
  name : String
  arguments : String
  deriving Repr, DecidableEq

/-- A tool call request emitted by the model: a call identifier plus the
function part, mirroring the ToolCall objects consumed by tool_step. -/
structure ToolCall where
  id : String
  function : ToolFunction
  deriving Repr, DecidableEq

/-- A role-tagged transcript entry.  The four constructors mirror
SystemMessage, UserMessage, AIMessage and ToolMessage of lib.messages
(an external collaborator; only role and payload shape matter here). -/
inductive Message where
  | system (content : String)
  | user (content : String)
  | assistant (content : String) (tool_calls : Option (List ToolCall))
  | tool (content : String) (tool_call_id : String) (name : String)
  deriving Repr, DecidableEq

/-- Keyword-style arguments passed to a tool, the result of parsing the
serialized argument text; the empty list models the empty argument set. -/
abbrev Args := List (String × String)

/-- Modelled from the spec: a Tool (section 6) is a callable identified by a
unique name; run is the callable composed with the serialization of its
result (json.dumps with default=str in the source), so it yields the
tool-role message content directly. -/
structure Tool where
  name : String
  run : Args → String

/-- Modelled from the spec: the model client response (section 6) carries
generated content, an optional list of requested tool calls and an optional
token-usage total. -/
structure LLMResponse where
  content : String
  tool_calls : Option (List ToolCall)
  token_usage : Option Nat

/-- Modelled from the spec: the model client (section 6) maps a transcript to
a response; configuration (model name, temperature, endpoint, credential) is
absorbed into the function value. -/
abbrev LLMClient := List Message → LLMResponse

/-- Modelled from the spec: json.loads on the serialized tool arguments;
failure (json.JSONDecodeError) is the none result. -/
abbrev ArgsDecoder := String → Option Args

/-- The agent state, mirroring the AgentState TypedDict of the source plus
the session_id key that the step functions read and write.  The
pending-tool-calls field is Option: none models Python None. -/
structure AgentState where
  user_query : String
  instructions : String
  messages : List Message
  current_tool_calls : Option (List ToolCall)
  total_tokens : Nat
  session_id : Option String
  deriving Repr, DecidableEq

/-- A partial state update as returned by a step: each field is none when the
returned dict of a step does not mention the key, and some v when the dict maps
the key to v.  For the two keys whose values are themselves optional, the
inner Option is the stored value. -/
structure StateUpdate where
  user_query : Option String := none
  instructions : Option String := none
  messages : Option (List Message) := none
  current_tool_calls : Option (Option (List ToolCall)) := none
  total_tokens : Option Nat := none
  session_id : Option (Option String) := none
  deriving Repr, DecidableEq

/-- Modelled from the spec: the merge done by the executor (section 4.1) is a shallow
key-wise overwrite; keys absent from the update are preserved from the prior
state. -/
def mergeState (s : AgentState) (u : StateUpdate) : AgentState :=
  { user_query := u.user_query.getD s.user_query
    instructions := u.instructions.getD s.instructions
    messages := u.messages.getD s.messages
    current_tool_calls := u.current_tool_calls.getD s.current_tool_calls
    total_tokens := u.total_tokens.getD s.total_tokens
    session_id := u.session_id.getD s.session_id }

/-- Translation of Agent._prepare_messages_step: seed an empty transcript
with a system entry carrying the instructions, then append the user query;
the returned dict mentions only the messages and session_id keys. -/
def prepare_messages_step (state : AgentState) : StateUpdate :=
  let messages :=
    if state.messages.isEmpty then [Message.system state.instructions]
    else state.messages
  { messages := some (messages ++ [Message.user state.user_query])
    session_id := some state.session_id }

/-- The token contribution of one model response: the reported usage total,
or 0 when usage is absent (response.token_usage is None). -/
def usageOf (response : LLMResponse) : Nat :=
  match response.token_usage with
  | some total_tokens => total_tokens
  | none => 0

/-- Normalization applied by Agent._llm_step to the tool calls of the response:
response.tool_calls if response.tool_calls else None, so an absent or empty
list becomes none. -/
def normalizedCalls (tc : Option (List ToolCall)) : Option (List ToolCall) :=
  match tc with
  | some l => if l.isEmpty then none else some l
  | none => none

/-- Translation of Agent._llm_step: invoke the model client on the current
transcript, append one assistant entry carrying the content and the
normalized tool calls, set the pending-tool-calls key to those calls, and add
the reported usage (0 when absent) to the running token counter. -/
def llm_step (llm : LLMClient) (state : AgentState) : StateUpdate :=
  let response := llm state.messages
  let tool_calls := normalizedCalls response.tool_calls
  let current_total := state.total_tokens + usageOf response
  { messages := some (state.messages ++ [Message.assistant response.content tool_calls])
    current_tool_calls := some tool_calls
    session_id := some state.session_id
    total_tokens := some current_total }

/-- Resolution of one pending call inside Agent._tool_step: parse the
serialized arguments (a parse failure degrades to the empty argument set),
look up the first configured tool with the exact requested name, and if found
produce the tool-role entry correlated to the originating call id; if not
found produce nothing. -/
def resolveCall (tools : List Tool) (decodeArgs : ArgsDecoder) (call : ToolCall) :
    Option Message :=
  let function_args := (decodeArgs call.function.arguments).getD []
  match tools.find? (fun t => t.name == call.function.name) with
  | some tool =>
      some (Message.tool (tool.run function_args) call.id call.function.name)
  | none => none

/-- Translation of Agent._tool_step.  The source reads
state.get("current_tool_calls", []) and iterates the result; the key is
always present in the states this agent builds, so a stored None reaches the
for loop and raises TypeError, modelled by the none result.  With a stored
list the step appends the resolved tool-role entries in call order and
returns a dict mentioning messages, current_tool_calls (cleared to None) and
session_id. -/
def tool_step (tools : List Tool) (decodeArgs : ArgsDecoder) (state : AgentState) :
    Option StateUpdate :=
  match state.current_tool_calls with
  | none => none
  | some tool_calls =>
      some { messages := some (state.messages ++ tool_calls.filterMap (resolveCall tools decodeArgs))
             current_tool_calls := some none
             session_id := some state.session_id }

/-- The five nodes of the agent graph assembled by _create_state_machine. -/
inductive Node where
  | entry
  | message_prep
  | llm_processor
  | tool_executor
  | termination
  deriving Repr, DecidableEq

/-- The step name recorded in the run history for each graph node. -/
def Node.name : Node → String
  | Node.entry => "entry"
  | Node.message_prep => "message_prep"
  | Node.llm_processor => "llm_processor"
  | Node.tool_executor => "tool_executor"
  | Node.termination => "termination"

/-- Translation of the router check_tool_calls in _create_state_machine:
route to the tool executor when state.get("current_tool_calls") is truthy
(a non-empty list), otherwise to termination; Python None and the empty list
are both falsy. -/
def check_tool_calls (state : AgentState) : Node :=
  match state.current_tool_calls with
  | some l => if l.isEmpty then Node.termination else Node.tool_executor
  | none => Node.termination

/-- The edge relation of the graph assembled by _create_state_machine: entry
to message preparation, message preparation to model invocation, model
invocation routed by check_tool_calls, tool execution looping back to model
invocation. -/
def route (node : Node) (state : AgentState) : Node :=
  match node with
  | Node.entry => Node.message_prep
  | Node.message_prep => Node.llm_processor
  | Node.llm_processor => check_tool_calls state
  | Node.tool_executor => Node.llm_processor
  | Node.termination => Node.termination

/-- The transformation attached to each node: the three agent steps for their
nodes, the empty update for the marker nodes (which the executor never
applies).  Only the tool step can fail (none). -/
def stepFn (llm : LLMClient) (tools : List Tool) (decodeArgs : ArgsDecoder) :
    Node → AgentState → Option StateUpdate
  | Node.entry, _ => some {}
  | Node.termination, _ => some {}
  | Node.message_prep, state => some (prepare_messages_step state)
  | Node.llm_processor, state => some (llm_step llm state)
  | Node.tool_executor, state => tool_step tools decodeArgs state

/-- Modelled from the spec: a Run (section 3) is the ordered sequence of
(step-name, resulting-state-snapshot) records of one execution plus the final
state. -/
structure Run where
  history : List (String × AgentState)
  final_state : AgentState
  deriving Repr, DecidableEq

/-- Accessor used by invoke to read the final state of a persisted run. -/
def Run.get_final_state (r : Run) : AgentState :=
  r.final_state

/-- Outcome of driving the graph: a completed Run, a step failure (an
exception escaping a step transformation), or exhaustion of the fuel bound
the embedding imposes on the unbounded source loop. -/
inductive ExecResult where
  | ok (r : Run)
  | stepError
  | outOfFuel
  deriving Repr, DecidableEq

/-- Modelled from the spec: the graph executor (section 4.1).  Starting at
entry, repeatedly resolve the successor of the current node; if it is termination,
stop and return the accumulated Run with final state equal to the last
applied state; otherwise apply the transformation of the successor to the current
state, merge the partial update, append a history record and continue from
the successor.  Fuel bounds the recursion, and a step failure propagates. -/
def execGraph (llm : LLMClient) (tools : List Tool) (decodeArgs : ArgsDecoder) :
    Nat → Node → AgentState → List (String × AgentState) → ExecResult
  | 0, _, _, _ => ExecResult.outOfFuel
  | fuel + 1, node, state, history =>
      let succ := route node state
      if succ = Node.termination then ExecResult.ok { history := history, final_state := state }
      else
        match stepFn llm tools decodeArgs succ state with
        | none => ExecResult.stepError
        | some u =>
            let state2 := mergeState state u
            execGraph llm tools decodeArgs fuel succ state2
              (history ++ [(succ.name, state2)])

/-- The usage totals reported by the model invocations an execution performs,
in order: a parallel recursion over the same trace as execGraph that records
usageOf of the response at each visit of the model-invocation node. -/
def usagesAlong (llm : LLMClient) (tools : List Tool) (decodeArgs : ArgsDecoder) :
    Nat → Node → AgentState → List Nat
  | 0, _, _ => []
  | fuel + 1, node, state =>
      let succ := route node state
      if succ = Node.termination then []
      else
        match stepFn llm tools decodeArgs succ state with
        | none => []
        | some u =>
            let state2 := mergeState state u
            (if succ = Node.llm_processor then [usageOf (llm state.messages)] else [])
              ++ usagesAlong llm tools decodeArgs fuel succ state2

/-- Modelled from the spec: Session Memory (section 6) stores the most recent
Run per session identifier. -/
abbrev Memory := String → Option Run

/-- Modelled from the spec: the empty store, holding no Run for any id. -/
def Memory.empty : Memory := fun _ => none

/-- Modelled from the spec: get_last(id) returns the stored Run for the id,
or absent. -/
def Memory.get_last (m : Memory) (id : String) : Option Run :=
  m id

/-- Modelled from the spec: add(run, id) overwrites the stored Run for the
id (last-write-wins). -/
def Memory.add (m : Memory) (r : Run) (id : String) : Memory :=
  fun k => if k = id then some r else m k

/-- Modelled from the spec: create_session(id) is idempotent and preserves
any Run already stored, as required by the continuation property; it has no
effect observable through get_last. -/
def Memory.create_session (m : Memory) (_id : String) : Memory :=
  m

/-- Translation of session_id or f"temp_session_..." in invoke:
Python or replaces a falsy left operand, and the falsy strings are exactly
the empty string, so both None and the empty string are replaced by the fresh
temporary id built from the generated uuid. -/
def resolveSessionId (session_id : Option String) (uuid : String) : String :=
  match session_id with
  | some s => if s = "" then "temp_session_" ++ uuid else s
  | none => "temp_session_" ++ uuid

/-- Translation of the previous-messages computation in invoke: only an
existing, ongoing conversation loads the last persisted Run; the messages of its
final state are used when present and non-empty (the source guards with
dict truthiness), otherwise the transcript starts empty. -/
def previousMessagesFor (memory : Memory) (is_new_session : Bool) (sid : String) :
    List Message :=
  if is_new_session then []
  else
    match memory.get_last sid with
    | some last_run =>
        let last_state := last_run.get_final_state
        if last_state.messages.isEmpty then [] else last_state.messages
    | none => []

/-- Translation of the initial_state dict built by invoke: the query, the
fixed instructions, the seeded transcript, pending tool calls cleared, the
resolved session id, and the token counter reset to 0. -/
def initialStateFor (query : String) (instructions : String)
    (previous_messages : List Message) (sid : String) : AgentState :=
  { user_query := query
    instructions := instructions
    messages := previous_messages
    current_tool_calls := none
    total_tokens := 0
    session_id := some sid }

/-- The transcript recorded under a session id: the final transcript of the
stored Run when one exists, and empty otherwise (used to state the
continuation claim). -/
def storedTranscript (m : Memory) (sid : String) : List Message :=
  match m.get_last sid with
  | some prior => prior.get_final_state.messages
  | none => []

/-- Translation of Agent.invoke: resolve the session id (generating a
temporary one when none or a falsy one is supplied), create the session, seed
the transcript from the last persisted Run only for an ongoing conversation,
build the initial state, run the workflow, and persist the resulting Run only
for an ongoing conversation.  The model client, tool set, argument decoder,
instructions, memory store, generated uuid and fuel are explicit parameters;
the none result covers fuel exhaustion and a failing step, where the source
raises. -/
def invoke (llm : LLMClient) (tools : List Tool) (decodeArgs : ArgsDecoder)
    (instructions : String) (memory : Memory) (query : String)
    (session_id : Option String) (uuid : String) (fuel : Nat) :
    Option (Run × Memory) :=
  let is_new_session := session_id.isNone
  let sid := resolveSessionId session_id uuid
  let memory1 := memory.create_session sid
  let previous_messages := previousMessagesFor memory1 is_new_session sid
  let initial_state := initialStateFor query instructions previous_messages sid
  match execGraph llm tools decodeArgs fuel Node.entry initial_state [] with
  | ExecResult.ok run_object =>
      some (run_object, if is_new_session then memory1 else memory1.add run_object sid)
  | ExecResult.stepError => none
  | ExecResult.outOfFuel => none

def decode0 : ArgsDecoder := fun _ => none

def llmPlain : LLMClient := fun _ =>
  { content := "ok", tool_calls := none, token_usage := none }

def llmU : LLMClient := fun _ =>
  { content := "ok", tool_calls := none, token_usage := some 7 }

def callA : ToolCall := { id := "call_1", function := { name := "search", arguments := "not json" } }

def callB : ToolCall := { id := "call_2", function := { name := "missing", arguments := "good" } }

def toolSearch : Tool := { name := "search", run := fun _ => "res" }

def llmT : LLMClient := fun _ =>
  { content := "t", tool_calls := some [callA], token_usage := none }

def sInit0 : AgentState := initialStateFor "q" "i" [] "s"

def sWith : AgentState :=
  { user_query := "q", instructions := "i", messages := [Message.user "hi"],
    current_tool_calls := some [callA], total_tokens := 0, session_id := some "s" }

def sNoneCalls : AgentState :=
  { user_query := "q", instructions := "i", messages := [],
    current_tool_calls := none, total_tokens := 0, session_id := some "s" }

def sPrev : AgentState :=
  { user_query := "q2", instructions := "i", messages := [Message.user "hi"],
    current_tool_calls := none, total_tokens := 0, session_id := some "s" }

def stU1 : AgentState :=
  { user_query := "q", instructions := "i",
    messages := [Message.system "i", Message.user "q"],
    current_tool_calls := none, total_tokens := 0, session_id := some "s" }

def stU2 : AgentState :=
  { user_query := "q", instructions := "i",
    messages := [Message.system "i", Message.user "q", Message.assistant "ok" none],
    current_tool_calls := none, total_tokens := 7, session_id := some "s" }

def runU : Run :=
  { history := [("message_prep", stU1), ("llm_processor", stU2)], final_state := stU2 }

def stS1a : AgentState :=
  { user_query := "a", instructions := "i",
    messages := [Message.system "i", Message.user "a"],
    current_tool_calls := none, total_tokens := 0, session_id := some "s" }

def stS1b : AgentState :=
  { user_query := "a", instructions := "i",
    messages := [Message.system "i", Message.user "a", Message.assistant "ok" none],
    current_tool_calls := none, total_tokens := 0, session_id := some "s" }

def runS1 : Run :=
  { history := [("message_prep", stS1a), ("llm_processor", stS1b)], final_state := stS1b }

def stS2a : AgentState :=
  { user_query := "b", instructions := "i",
    messages := [Message.system "i", Message.user "a", Message.assistant "ok" none,
      Message.user "b"],
    current_tool_calls := none, total_tokens := 0, session_id := some "s" }

def stS2b : AgentState :=
  { user_query := "b", instructions := "i",
    messages := [Message.system "i", Message.user "a", Message.assistant "ok" none,
      Message.user "b", Message.assistant "ok" none],
    current_tool_calls := none, total_tokens := 0, session_id := some "s" }

def runS2 : Run :=
  { history := [("message_prep", stS2a), ("llm_processor", stS2b)], final_state := stS2b }

def stT1 : AgentState :=
  { user_query := "q", instructions := "i",
    messages := [Message.system "i", Message.user "q"],
    current_tool_calls := none, total_tokens := 0, session_id := some "temp_session_u" }

def stT2 : AgentState :=
  { user_query := "q", instructions := "i",
    messages := [Message.system "i", Message.user "q", Message.assistant "ok" none],
    current_tool_calls := none, total_tokens := 0, session_id := some "temp_session_u" }

def runT : Run :=
  { history := [("message_prep", stT1), ("llm_processor", stT2)], final_state := stT2 }

def runPrior : Run :=
  { history := []
    final_state :=
      { user_query := "q0", instructions := "i", messages := [Message.user "hello"],
        current_tool_calls := none, total_tokens := 0, session_id := some "" } }

def memPrior : Memory := Memory.add Memory.empty runPrior ""

theorem route_ne_entry (node : Node) (s : AgentState) : route node s ≠ Node.entry := by
  cases node with
  | llm_processor =>
      simp only [route, check_tool_calls]
      cases s.current_tool_calls with
      | none => simp
      | some l => by_cases he : l.isEmpty <;> simp [he]
  | entry => simp [route]
  | message_prep => simp [route]
  | tool_executor => simp [route]
  | termination => simp [route]

theorem execGraph_zero (llm : LLMClient) (tools : List Tool) (decodeArgs : ArgsDecoder)
    (node : Node) (s : AgentState) (h : List (String × AgentState)) :
    execGraph llm tools decodeArgs 0 node s h = ExecResult.outOfFuel := rfl

theorem execGraph_succ (llm : LLMClient) (tools : List Tool) (decodeArgs : ArgsDecoder)
    (n : Nat) (node : Node) (s : AgentState) (h : List (String × AgentState)) :
    execGraph llm tools decodeArgs (n + 1) node s h =
      (if route node s = Node.termination then
        ExecResult.ok { history := h, final_state := s }
      else
        match stepFn llm tools decodeArgs (route node s) s with
        | none => ExecResult.stepError
        | some u =>
            execGraph llm tools decodeArgs n (route node s) (mergeState s u)
              (h ++ [((route node s).name, mergeState s u)])) := rfl

theorem usagesAlong_zero (llm : LLMClient) (tools : List Tool) (decodeArgs : ArgsDecoder)
    (node : Node) (s : AgentState) :
    usagesAlong llm tools decodeArgs 0 node s = [] := rfl

theorem usagesAlong_succ (llm : LLMClient) (tools : List Tool) (decodeArgs : ArgsDecoder)
    (n : Nat) (node : Node) (s : AgentState) :
    usagesAlong llm tools decodeArgs (n + 1) node s =
      (if route node s = Node.termination then []
      else
        match stepFn llm tools decodeArgs (route node s) s with
        | none => []
        | some u =>
            (if route node s = Node.llm_processor then [usageOf (llm s.messages)] else [])
              ++ usagesAlong llm tools decodeArgs n (route node s) (mergeState s u)) := rfl

theorem stepFn_isSome_of_route (llm : LLMClient) (tools : List Tool)
    (decodeArgs : ArgsDecoder) (node : Node) (s : AgentState)
    (hterm : route node s ≠ Node.termination) :
    (stepFn llm tools decodeArgs (route node s) s).isSome = true := by
  cases node with
  | entry => simp [route, stepFn]
  | message_prep => simp [route, stepFn]
  | llm_processor =>
      simp only [route, check_tool_calls] at hterm ⊢
      cases hc : s.current_tool_calls with
      | none => simp [hc] at hterm
      | some l =>
          simp only [hc] at hterm ⊢
          by_cases he : l.isEmpty
          · simp [he] at hterm
          · simp [he, stepFn, tool_step, hc]
  | tool_executor => simp [route, stepFn]
  | termination => simp [route] at hterm

theorem mergeState_messages (s : AgentState) (u : StateUpdate) :
    (mergeState s u).messages = u.messages.getD s.messages := rfl

theorem stepFn_messages_extend (llm : LLMClient) (tools : List Tool)
    (decodeArgs : ArgsDecoder) (succ : Node) (s : AgentState) (u : StateUpdate)
    (h : stepFn llm tools decodeArgs succ s = some u) :
    ∃ d, (mergeState s u).messages = s.messages ++ d := by
  cases succ with
  | entry =>
      simp only [stepFn, Option.some.injEq] at h
      exact ⟨[], by simp [← h, mergeState]⟩
  | termination =>
      simp only [stepFn, Option.some.injEq] at h
      exact ⟨[], by simp [← h, mergeState]⟩
  | message_prep =>
      simp only [stepFn, Option.some.injEq] at h
      subst h
      by_cases he : s.messages.isEmpty
      · refine ⟨[Message.system s.instructions, Message.user s.user_query], ?_⟩
        simp [mergeState, prepare_messages_step, he, List.isEmpty_iff.mp he]
      · exact ⟨[Message.user s.user_query], by simp [mergeState, prepare_messages_step, he]⟩
  | llm_processor =>
      simp only [stepFn, Option.some.injEq] at h
      subst h
      exact ⟨[Message.assistant (llm s.messages).content (normalizedCalls (llm s.messages).tool_calls)],
        by simp [mergeState, llm_step]⟩
  | tool_executor =>
      simp only [stepFn, tool_step] at h
      cases hc : s.current_tool_calls with
      | none => simp [hc] at h
      | some calls =>
          simp only [hc, Option.some.injEq] at h
          subst h
          exact ⟨calls.filterMap (resolveCall tools decodeArgs), by simp [mergeState]⟩

theorem execGraph_messages_extend (llm : LLMClient) (tools : List Tool)
    (decodeArgs : ArgsDecoder) :
    ∀ (fuel : Nat) (node : Node) (s : AgentState) (h : List (String × AgentState))
      (r : Run), execGraph llm tools decodeArgs fuel node s h = ExecResult.ok r →
      ∃ d, r.final_state.messages = s.messages ++ d := by
  intro fuel
  induction fuel with
  | zero => intro node s h r hr; rw [execGraph_zero] at hr; exact absurd hr (by simp)
  | succ n ih =>
      intro node s h r hr
      rw [execGraph_succ] at hr
      by_cases hterm : route node s = Node.termination
      · rw [if_pos hterm] at hr
        simp only [ExecResult.ok.injEq] at hr
        exact ⟨[], by simp [← hr]⟩
      · rw [if_neg hterm] at hr
        cases hstep : stepFn llm tools decodeArgs (route node s) s with
        | none => rw [hstep] at hr; simp at hr
        | some u =>
            rw [hstep] at hr
            obtain ⟨d1, hd1⟩ := stepFn_messages_extend llm tools decodeArgs _ s u hstep
            obtain ⟨d2, hd2⟩ := ih _ _ _ _ hr
            exact ⟨d1 ++ d2, by rw [hd2, hd1, List.append_assoc]⟩

theorem stepFn_session (llm : LLMClient) (tools : List Tool)
    (decodeArgs : ArgsDecoder) (succ : Node) (s : AgentState) (u : StateUpdate)
    (h : stepFn llm tools decodeArgs succ s = some u)
    (hne : succ ≠ Node.entry) (hnt : succ ≠ Node.termination) :
    u.session_id = some s.session_id := by
  cases succ with
  | entry => exact absurd rfl hne
  | termination => exact absurd rfl hnt
  | message_prep =>
      simp only [stepFn, Option.some.injEq] at h
      subst h; rfl
  | llm_processor =>
      simp only [stepFn, Option.some.injEq] at h
      subst h; rfl
  | tool_executor =>
      simp only [stepFn, tool_step] at h
      cases hc : s.current_tool_calls with
      | none => simp [hc] at h
      | some calls =>
          simp only [hc, Option.some.injEq] at h
          subst h; rfl

theorem execGraph_session (llm : LLMClient) (tools : List Tool)
    (decodeArgs : ArgsDecoder) :
    ∀ (fuel : Nat) (node : Node) (s : AgentState) (h : List (String × AgentState))
      (r : Run), execGraph llm tools decodeArgs fuel node s h = ExecResult.ok r →
      r.final_state.session_id = s.session_id := by
  intro fuel
  induction fuel with
  | zero => intro node s h r hr; rw [execGraph_zero] at hr; exact absurd hr (by simp)
  | succ n ih =>
      intro node s h r hr
      rw [execGraph_succ] at hr
      by_cases hterm : route node s = Node.termination
      · rw [if_pos hterm] at hr
        simp only [ExecResult.ok.injEq] at hr
        rw [← hr]
      · rw [if_neg hterm] at hr
        cases hstep : stepFn llm tools decodeArgs (route node s) s with
        | none => rw [hstep] at hr; simp at hr
        | some u =>
            rw [hstep] at hr
            have hu := stepFn_session llm tools decodeArgs _ s u hstep
              (route_ne_entry node s) hterm
            have hm : (mergeState s u).session_id = s.session_id := by
              simp [mergeState, hu]
            rw [ih _ _ _ _ hr, hm]

theorem mergeState_tokens_of_none (s : AgentState) (u : StateUpdate)
    (h : u.total_tokens = none) : (mergeState s u).total_tokens = s.total_tokens := by
  simp [mergeState, h]

theorem stepFn_tokens (llm : LLMClient) (tools : List Tool)
    (decodeArgs : ArgsDecoder) (succ : Node) (s : AgentState) (u : StateUpdate)
    (h : stepFn llm tools decodeArgs succ s = some u) :
    (mergeState s u).total_tokens =
      s.total_tokens + (if succ = Node.llm_processor then usageOf (llm s.messages) else 0) := by
  cases succ with
  | entry =>
      simp only [stepFn, Option.some.injEq] at h
      subst h; simp [mergeState]
  | termination =>
      simp only [stepFn, Option.some.injEq] at h
      subst h; simp [mergeState]
  | message_prep =>
      simp only [stepFn, Option.some.injEq] at h
      subst h; simp [mergeState, prepare_messages_step]
  | llm_processor =>
      simp only [stepFn, Option.some.injEq] at h
      subst h; simp [mergeState, llm_step]
  | tool_executor =>
      simp only [stepFn, tool_step] at h
      cases hc : s.current_tool_calls with
      | none => simp [hc] at h
      | some calls =>
          simp only [hc, Option.some.injEq] at h
          subst h; simp [mergeState]

theorem execGraph_tokens (llm : LLMClient) (tools : List Tool)
    (decodeArgs : ArgsDecoder) :
    ∀ (fuel : Nat) (node : Node) (s : AgentState) (h : List (String × AgentState))
      (r : Run), execGraph llm tools decodeArgs fuel node s h = ExecResult.ok r →
      r.final_state.total_tokens =
        s.total_tokens + (usagesAlong llm tools decodeArgs fuel node s).sum ∧
      ∃ rest, r.history = h ++ rest ∧
        rest.countP (fun rec => rec.fst == "llm_processor") =
          (usagesAlong llm tools decodeArgs fuel node s).length := by
  intro fuel
  induction fuel with
  | zero => intro node s h r hr; rw [execGraph_zero] at hr; exact absurd hr (by simp)
  | succ n ih =>
      intro node s h r hr
      rw [execGraph_succ] at hr
      rw [usagesAlong_succ]
      by_cases hterm : route node s = Node.termination
      · rw [if_pos hterm] at hr
        rw [if_pos hterm]
        simp only [ExecResult.ok.injEq] at hr
        refine ⟨by rw [← hr]; simp, [], by rw [← hr]; simp, by simp⟩
      · rw [if_neg hterm] at hr
        rw [if_neg hterm]
        cases hstep : stepFn llm tools decodeArgs (route node s) s with
        | none => rw [hstep] at hr; simp at hr
        | some u =>
            rw [hstep] at hr
            obtain ⟨htok, rest, hhist, hcount⟩ := ih _ _ _ _ hr
            have hmerge := stepFn_tokens llm tools decodeArgs _ s u hstep
            constructor
            · rw [htok, hmerge]
              by_cases hllm : route node s = Node.llm_processor
              · simp [hllm, Nat.add_assoc]
              · simp [hllm]
            · refine ⟨((route node s).name, mergeState s u) :: rest, ?_, ?_⟩
              · rw [hhist]; simp
              · rw [List.countP_cons]
                by_cases hllm : route node s = Node.llm_processor
                · simp [hllm, hcount, Node.name, Nat.add_comm]
                · have hname : ((route node s).name == "llm_processor") = false := by
                    cases hroute : route node s <;> simp [Node.name] at hllm ⊢
                    exact absurd hroute hllm
                  simp [hname, hcount, hllm]

theorem execGraph_never_stepError (llm : LLMClient) (tools : List Tool)
    (decodeArgs : ArgsDecoder) :
    ∀ (fuel : Nat) (node : Node) (s : AgentState) (h : List (String × AgentState)),
      execGraph llm tools decodeArgs fuel node s h ≠ ExecResult.stepError := by
  intro fuel
  induction fuel with
  | zero => intro node s h; rw [execGraph_zero]; simp
  | succ n ih =>
      intro node s h
      rw [execGraph_succ]
      by_cases hterm : route node s = Node.termination
      · rw [if_pos hterm]; simp
      · rw [if_neg hterm]
        cases hstep : stepFn llm tools decodeArgs (route node s) s with
        | none =>
            have := stepFn_isSome_of_route llm tools decodeArgs node s hterm
            rw [hstep] at this
            simp at this
        | some u => exact ih _ _ _

theorem execGraph_entry_shape (llm : LLMClient) (tools : List Tool)
    (decodeArgs : ArgsDecoder) (fuel : Nat) (s : AgentState) (r : Run)
    (h : execGraph llm tools decodeArgs fuel Node.entry s [] = ExecResult.ok r) :
    ∃ rest, r.final_state.messages =
      (if s.messages = [] then [Message.system s.instructions] else s.messages)
        ++ Message.user s.user_query :: rest := by
  cases fuel with
  | zero => rw [execGraph_zero] at h; exact absurd h (by simp)
  | succ n =>
      rw [execGraph_succ] at h
      have hroute : route Node.entry s = Node.message_prep := rfl
      rw [hroute] at h
      rw [if_neg (by simp)] at h
      have hstep : stepFn llm tools decodeArgs Node.message_prep s =
          some (prepare_messages_step s) := rfl
      rw [hstep] at h
      obtain ⟨d, hd⟩ := execGraph_messages_extend llm tools decodeArgs _ _ _ _ _ h
      refine ⟨d, ?_⟩
      rw [hd]
      have hm : (mergeState s (prepare_messages_step s)).messages =
          (if s.messages = [] then [Message.system s.instructions] else s.messages)
            ++ [Message.user s.user_query] := by
        simp only [mergeState, prepare_messages_step]
        by_cases he : s.messages.isEmpty
        · simp [he, List.isEmpty_iff.mp he]
        · have : s.messages ≠ [] := by
            intro hnil; rw [hnil] at he; simp at he
          simp [he, this]
      rw [hm, List.append_assoc]
      rfl

theorem previousMessagesFor_persistent (m : Memory) (sid : String) :
    previousMessagesFor m false sid = storedTranscript m sid := by
  unfold previousMessagesFor storedTranscript
  simp only [if_neg Bool.false_ne_true]
  cases h : m.get_last sid with
  | none => rfl
  | some prior =>
      by_cases he : prior.get_final_state.messages.isEmpty
      · simp [he, List.isEmpty_iff.mp he]
      · simp [he]

theorem resolveSessionId_ne_empty (sid uuid : String) (h : sid ≠ "") :
    resolveSessionId (some sid) uuid = sid := by
  simp [resolveSessionId, h]

theorem resolveCall_eq_some (tools : List Tool) (decodeArgs : ArgsDecoder)
    (c : ToolCall) (msg : Message) (h : resolveCall tools decodeArgs c = some msg) :
    ∃ t, tools.find? (fun t2 => t2.name == c.function.name) = some t ∧
      msg = Message.tool (t.run ((decodeArgs c.function.arguments).getD []))
        c.id c.function.name := by
  unfold resolveCall at h
  cases hf : tools.find? (fun t2 => t2.name == c.function.name) with
  | none => rw [hf] at h; exact absurd h (by simp)
  | some t =>
      rw [hf] at h
      simp only [Option.some.injEq] at h
      exact ⟨t, rfl, h.symm⟩

theorem invoke_temporary (llm : LLMClient) (tools : List Tool) (decodeArgs : ArgsDecoder)
    (instructions : String) (m : Memory) (q uuid : String) (fuel : Nat) :
    invoke llm tools decodeArgs instructions m q none uuid fuel =
      (match execGraph llm tools decodeArgs fuel Node.entry
          (initialStateFor q instructions [] ("temp_session_" ++ uuid)) [] with
      | ExecResult.ok run_object => some (run_object, m)
      | ExecResult.stepError => none
      | ExecResult.outOfFuel => none) := rfl

theorem invoke_persistent (llm : LLMClient) (tools : List Tool) (decodeArgs : ArgsDecoder)
    (instructions : String) (m : Memory) (q sid uuid : String) (fuel : Nat)
    (hne : sid ≠ "") :
    invoke llm tools decodeArgs instructions m q (some sid) uuid fuel =
      (match execGraph llm tools decodeArgs fuel Node.entry
          (initialStateFor q instructions (storedTranscript m sid) sid) [] with
      | ExecResult.ok run_object => some (run_object, m.add run_object sid)
      | ExecResult.stepError => none
      | ExecResult.outOfFuel => none) := by
  have h1 : resolveSessionId (some sid) uuid = sid := resolveSessionId_ne_empty sid uuid hne
  simp only [invoke, h1, Memory.create_session, Option.isNone]
  rw [previousMessagesFor_persistent]
  rfl

theorem invoke_persistent_ok (llm : LLMClient) (tools : List Tool)
    (decodeArgs : ArgsDecoder) (instructions : String) (m : Memory)
    (q sid uuid : String) (fuel : Nat) (r : Run) (m' : Memory) (hne : sid ≠ "")
    (h : invoke llm tools decodeArgs instructions m q (some sid) uuid fuel = some (r, m')) :
    m'.get_last sid = some r ∧
    (∀ other, other ≠ sid → m'.get_last other = m.get_last other) ∧
    ∃ rest, r.final_state.messages =
      (if storedTranscript m sid = [] then [Message.system instructions]
        else storedTranscript m sid) ++ Message.user q :: rest := by
  rw [invoke_persistent llm tools decodeArgs instructions m q sid uuid fuel hne] at h
  cases hexec : execGraph llm tools decodeArgs fuel Node.entry
      (initialStateFor q instructions (storedTranscript m sid) sid) [] with
  | stepError => rw [hexec] at h; exact absurd h (by simp)
  | outOfFuel => rw [hexec] at h; exact absurd h (by simp)
  | ok run_object =>
      rw [hexec] at h
      simp only [Option.some.injEq, Prod.mk.injEq] at h
      obtain ⟨hr, hm⟩ := h
      subst hr
      subst hm
      refine ⟨?_, ?_, ?_⟩
      · simp [Memory.get_last, Memory.add]
      · intro other hother; simp [Memory.get_last, Memory.add, hother]
      · have := execGraph_entry_shape llm tools decodeArgs fuel _ _ hexec
        simpa [initialStateFor] using this

/-- C1: the routing function applied after the model-invocation step is the
router of the llm node; it returns the tool-execution step when the
pending-tool-calls field holds a non-empty list, returns the termination
marker otherwise (on an absent value or an empty list), and as a pure
function of the state it returns the same successor on any two applications
to identical states. -/
theorem claim_c1 :
    (∀ s : AgentState, route Node.llm_processor s = check_tool_calls s) ∧
    (∀ (s : AgentState) (l : List ToolCall),
      s.current_tool_calls = some l → l ≠ [] →
      check_tool_calls s = Node.tool_executor) ∧
    (∀ s : AgentState,
      s.current_tool_calls = none ∨ s.current_tool_calls = some [] →
      check_tool_calls s = Node.termination) ∧
    (∀ s t : AgentState, s = t → check_tool_calls s = check_tool_calls t) := by
  refine ⟨fun s => rfl, ?_, ?_, fun s t h => by rw [h]⟩
  · intro s l hl hne
    have he : l.isEmpty = false := by
      cases l with
      | nil => exact absurd rfl hne
      | cons a l2 => rfl
    simp [check_tool_calls, hl, he]
  · rintro s (hl | hl) <;> simp [check_tool_calls, hl]

/-- C1 witness: the router at a state with one pending call, at a state
with no pending calls, and the determinism conjunct at a concrete state. -/
theorem claim_c1_witness :
    check_tool_calls sWith = Node.tool_executor ∧
    check_tool_calls sNoneCalls = Node.termination ∧
    check_tool_calls sInit0 = check_tool_calls sInit0 :=
  ⟨claim_c1.2.1 sWith [callA] rfl (by decide),
   claim_c1.2.2.1 sNoneCalls (Or.inl rfl),
   claim_c1.2.2.2 sInit0 sInit0 rfl⟩

/-- C2 counterexample: at an input state whose pending-tool-calls field holds
the absent value (Python None, exactly what the initial state stores), the
tool-execution step does not return a partial update: the source iterates
over None and raises TypeError, so the claim fails for this input state. -/
theorem claim_c2_counterexample : tool_step [] decode0 sNoneCalls = none := rfl

/-- C2 amended: for every input state whose pending-tool-calls field holds a
list (rather than the absent value), the tool-execution step returns a
partial update whose transcript equals the input transcript followed by the
produced tool-role entries, one per resolved call in the order of the
pending calls, each correlated to its originating call id, and whose
pending-tool-calls field is cleared to the absent value, regardless of how
many calls resolved to a configured tool. -/
theorem claim_c2_amended (tools : List Tool) (decodeArgs : ArgsDecoder) :
    (∀ (s : AgentState) (calls : List ToolCall),
      s.current_tool_calls = some calls →
      tool_step tools decodeArgs s = some
        { messages := some (s.messages ++ calls.filterMap (resolveCall tools decodeArgs))
          current_tool_calls := some none
          session_id := some s.session_id }) ∧
    (∀ (c : ToolCall) (msg : Message), resolveCall tools decodeArgs c = some msg →
      ∃ content, msg = Message.tool content c.id c.function.name) := by
  constructor
  · intro s calls hc
    simp [tool_step, hc]
  · intro c msg h
    obtain ⟨t, _, hmsg⟩ := resolveCall_eq_some tools decodeArgs c msg h
    exact ⟨_, hmsg⟩

/-- C2 amended witness: the tool step at a concrete state holding one
pending call, and the id correlation at a concrete resolved call. -/
theorem claim_c2_amended_witness :
    tool_step [toolSearch] decode0 sWith = some
      { messages := some (sWith.messages ++ [callA].filterMap (resolveCall [toolSearch] decode0))
        current_tool_calls := some none
        session_id := some sWith.session_id } ∧
    ∃ content, Message.tool "res" "call_1" "search" =
      Message.tool content callA.id callA.function.name :=
  ⟨(claim_c2_amended [toolSearch] decode0).1 sWith [callA] rfl,
   (claim_c2_amended [toolSearch] decode0).2 callA (Message.tool "res" "call_1" "search") rfl⟩

/-- C3: the message-preparation step returns a partial update whose
transcript is, on an empty input transcript, one system-role entry carrying
the fixed instructions followed by a user-role entry carrying the query,
and, on a non-empty input transcript, the input transcript with the
user-role query entry appended and no system entry added; it mentions only
the messages and session-id keys. -/
theorem claim_c3 :
    ∀ s : AgentState,
      (s.messages = [] → prepare_messages_step s =
        { messages := some [Message.system s.instructions, Message.user s.user_query]
          session_id := some s.session_id }) ∧
      (s.messages ≠ [] → prepare_messages_step s =
        { messages := some (s.messages ++ [Message.user s.user_query])
          session_id := some s.session_id }) := by
  intro s
  constructor
  · intro h
    simp [prepare_messages_step, h]
  · intro h
    have he : s.messages.isEmpty = false := by
      cases hm : s.messages with
      | nil => exact absurd hm h
      | cons a l => rfl
    simp [prepare_messages_step, he]

/-- C3 witness: the preparation step at a concrete empty transcript and at a
concrete non-empty transcript. -/
theorem claim_c3_witness :
    prepare_messages_step sInit0 =
      { messages := some [Message.system sInit0.instructions, Message.user sInit0.user_query]
        session_id := some sInit0.session_id } ∧
    prepare_messages_step sPrev =
      { messages := some (sPrev.messages ++ [Message.user sPrev.user_query])
        session_id := some sPrev.session_id } :=
  ⟨(claim_c3 sInit0).1 rfl, (claim_c3 sPrev).2 (by decide)⟩

/-- C4: the token counter of the initial state built by invoke is 0; the
model-invocation step returns a counter equal to the input counter plus the
usage reported by that invocation (0 when usage is absent); and along any
completed execution the final counter equals the initial counter plus the
sum of the usages reported at the model invocations, whose count equals the
number of model-invocation records in the run history. -/
theorem claim_c4 (llm : LLMClient) (tools : List Tool) (decodeArgs : ArgsDecoder) :
    (∀ (q instructions : String) (prev : List Message) (sid : String),
      (initialStateFor q instructions prev sid).total_tokens = 0) ∧
    (∀ s : AgentState, (llm_step llm s).total_tokens =
      some (s.total_tokens + usageOf (llm s.messages))) ∧
    (∀ (fuel : Nat) (node : Node) (s : AgentState)
      (h : List (String × AgentState)) (r : Run),
      execGraph llm tools decodeArgs fuel node s h = ExecResult.ok r →
      r.final_state.total_tokens =
        s.total_tokens + (usagesAlong llm tools decodeArgs fuel node s).sum ∧
      ∃ rest, r.history = h ++ rest ∧
        rest.countP (fun rec => rec.fst == "llm_processor") =
          (usagesAlong llm tools decodeArgs fuel node s).length) :=
  ⟨fun _ _ _ _ => rfl, fun _ => rfl, execGraph_tokens llm tools decodeArgs⟩

/-- C4 witness: a concrete run with one model invocation reporting usage 7
starting from a counter of 0. -/
theorem claim_c4_witness :
    runU.final_state.total_tokens =
      sInit0.total_tokens + (usagesAlong llmU [] decode0 5 Node.entry sInit0).sum ∧
    ∃ rest, runU.history = [] ++ rest ∧
      rest.countP (fun rec => rec.fst == "llm_processor") =
        (usagesAlong llmU [] decode0 5 Node.entry sInit0).length :=
  (claim_c4 llmU [] decode0).2.2 5 Node.entry sInit0 [] runU rfl

/-- C5 counterexample: the claim fails for a supplied empty-string session
id.  A Run whose final transcript is the single entry user "hello" is stored
under the id "", yet invoke with session_id some "" seeds the new transcript
from nothing (the produced final transcript begins with a fresh system
entry, not with the stored transcript) and does not write the resulting Run
under "": the store still holds the prior Run, which differs from the
produced one.  The source computes is_new_session with an is-None test but
replaces any falsy id with the generated temporary id, so the run is loaded
from and persisted under the temporary id instead. -/
theorem claim_c5_counterexample :
    (invoke llmPlain [] decode0 "i" memPrior "q2" (some "") "u1" 9).map
        (fun p => (p.1.final_state.messages, p.2.get_last "")) =
      some ([Message.system "i", Message.user "q2", Message.assistant "ok" none],
        some runPrior) ∧
    storedTranscript memPrior "" = [Message.user "hello"] ∧
    (invoke llmPlain [] decode0 "i" memPrior "q2" (some "") "u1" 9).map Prod.fst ≠
      some runPrior :=
  ⟨rfl, rfl, by decide⟩

/-- C5 amended: for every invoke call with a supplied non-empty session id,
the initial transcript is seeded from the final transcript of the last Run
stored for that id (empty when none is stored, in which case a system entry
is seeded), the resulting Run is written to Session Memory under that id,
overwriting any prior Run and leaving other ids untouched; hence two
successive invokes on the same non-empty id yield a final transcript
containing both exchanges in order.  A supplied empty-string id is instead
treated like an absent one for loading, and the run is persisted under the
generated temporary id. -/
theorem claim_c5_amended (llm : LLMClient) (tools : List Tool)
    (decodeArgs : ArgsDecoder) (instructions : String) :
    (∀ (m : Memory) (q sid uuid : String) (fuel : Nat) (r : Run) (m' : Memory),
      sid ≠ "" →
      invoke llm tools decodeArgs instructions m q (some sid) uuid fuel = some (r, m') →
      m'.get_last sid = some r ∧
      (∀ other, other ≠ sid → m'.get_last other = m.get_last other) ∧
      ∃ rest, r.final_state.messages =
        (if storedTranscript m sid = [] then [Message.system instructions]
          else storedTranscript m sid) ++ Message.user q :: rest) ∧
    (∀ (m : Memory) (q1 q2 sid u1 u2 : String) (f1 f2 : Nat) (r1 : Run)
      (m1 : Memory) (r2 : Run) (m2 : Memory),
      sid ≠ "" →
      invoke llm tools decodeArgs instructions m q1 (some sid) u1 f1 = some (r1, m1) →
      invoke llm tools decodeArgs instructions m1 q2 (some sid) u2 f2 = some (r2, m2) →
      ∃ rest, r2.final_state.messages =
        r1.final_state.messages ++ Message.user q2 :: rest) := by
  constructor
  · intro m q sid uuid fuel r m' hne h
    exact invoke_persistent_ok llm tools decodeArgs instructions m q sid uuid fuel r m' hne h
  · intro m q1 q2 sid u1 u2 f1 f2 r1 m1 r2 m2 hne h1 h2
    obtain ⟨hstore, _, rest1, hshape1⟩ :=
      invoke_persistent_ok llm tools decodeArgs instructions m q1 sid u1 f1 r1 m1 hne h1
    obtain ⟨_, _, rest2, hshape2⟩ :=
      invoke_persistent_ok llm tools decodeArgs instructions m1 q2 sid u2 f2 r2 m2 hne h2
    have hstored : storedTranscript m1 sid = r1.final_state.messages := by
      unfold storedTranscript
      rw [hstore]
      rfl
    have hnonempty : r1.final_state.messages ≠ [] := by
      rw [hshape1]
      intro hcontra
      cases hif : (if storedTranscript m sid = [] then [Message.system instructions]
          else storedTranscript m sid) with
      | nil =>
          rw [hif] at hcontra
          simp at hcontra
      | cons a l =>
          rw [hif] at hcontra
          simp at hcontra
    rw [hstored, if_neg hnonempty] at hshape2
    exact ⟨rest2, hshape2⟩

/-- C5 amended witness: a concrete first invoke on session "s" over the
empty store followed by a concrete second invoke over the resulting store;
the stored Run is the produced one and the second final transcript extends
the first with the second exchange. -/
theorem claim_c5_amended_witness :
    (Memory.add Memory.empty runS1 "s").get_last "s" = some runS1 ∧
    ∃ rest, runS2.final_state.messages =
      runS1.final_state.messages ++ Message.user "b" :: rest :=
  ⟨((claim_c5_amended llmPlain [] decode0 "i").1 Memory.empty "a" "s" "u" 9 runS1
      (Memory.add Memory.empty runS1 "s") (by decide) rfl).1,
   (claim_c5_amended llmPlain [] decode0 "i").2 Memory.empty "a" "b" "s" "u" "u2" 9 9
      runS1 (Memory.add Memory.empty runS1 "s") runS2
      (Memory.add (Memory.add Memory.empty runS1 "s") runS2 "s") (by decide) rfl rfl⟩

/-- C6: for every invoke call with no session id supplied, the initial
transcript is empty (the produced final transcript begins with the seeded
system entry and the query, independently of the store), the resulting Run
is never written to Session Memory (the store is unchanged at every id),
and the produced Run does not depend on the store at all, so two invoke
calls without a session id never observe one another in the transcript. -/
theorem claim_c6 (llm : LLMClient) (tools : List Tool) (decodeArgs : ArgsDecoder)
    (instructions : String) :
    (∀ (m1 m2 : Memory) (q uuid : String) (fuel : Nat),
      (invoke llm tools decodeArgs instructions m1 q none uuid fuel).map Prod.fst =
      (invoke llm tools decodeArgs instructions m2 q none uuid fuel).map Prod.fst) ∧
    (∀ (m : Memory) (q uuid : String) (fuel : Nat) (r : Run) (m' : Memory),
      invoke llm tools decodeArgs instructions m q none uuid fuel = some (r, m') →
      (∀ id, m'.get_last id = m.get_last id) ∧
      ∃ rest, r.final_state.messages =
        Message.system instructions :: Message.user q :: rest) := by
  constructor
  · intro m1 m2 q uuid fuel
    rw [invoke_temporary, invoke_temporary]
    cases execGraph llm tools decodeArgs fuel Node.entry
        (initialStateFor q instructions [] ("temp_session_" ++ uuid)) [] <;> rfl
  · intro m q uuid fuel r m' h
    rw [invoke_temporary] at h
    cases hexec : execGraph llm tools decodeArgs fuel Node.entry
        (initialStateFor q instructions [] ("temp_session_" ++ uuid)) [] with
    | stepError => rw [hexec] at h; exact absurd h (by simp)
    | outOfFuel => rw [hexec] at h; exact absurd h (by simp)
    | ok run_object =>
        rw [hexec] at h
        simp only [Option.some.injEq, Prod.mk.injEq] at h
        obtain ⟨hr, hm⟩ := h
        subst hr
        subst hm
        refine ⟨fun id => rfl, ?_⟩
        obtain ⟨rest, hshape⟩ := execGraph_entry_shape llm tools decodeArgs fuel _ _ hexec
        refine ⟨rest, ?_⟩
        simpa [initialStateFor] using hshape

/-- C6 witness: a concrete invoke without a session id over the empty store;
the store is unchanged at a concrete id and the final transcript begins with
the seeded system and user entries. -/
theorem claim_c6_witness :
    Memory.get_last Memory.empty "s" = Memory.get_last Memory.empty "s" ∧
    ∃ rest, runT.final_state.messages =
      Message.system "i" :: Message.user "q" :: rest :=
  ⟨((claim_c6 llmPlain [] decode0 "i").2 Memory.empty "q" "u" 9 runT Memory.empty rfl).1 "s",
   ((claim_c6 llmPlain [] decode0 "i").2 Memory.empty "q" "u" 9 runT Memory.empty rfl).2⟩

/-- C7: a pending call whose serialized arguments fail to parse is invoked
with the empty argument set instead of raising: when the decoder fails and
the named tool is configured, the resolved entry carries the tool applied to
the empty argument set; and the step never aborts on such a call: for any
pending list around the failing call the step still returns the update with
the entries of the preceding and following calls resolved as usual. -/
theorem claim_c7 (tools : List Tool) (decodeArgs : ArgsDecoder) :
    (∀ (c : ToolCall) (t : Tool), decodeArgs c.function.arguments = none →
      tools.find? (fun t2 => t2.name == c.function.name) = some t →
      resolveCall tools decodeArgs c =
        some (Message.tool (t.run []) c.id c.function.name)) ∧
    (∀ (s : AgentState) (pre post : List ToolCall) (c : ToolCall),
      s.current_tool_calls = some (pre ++ c :: post) →
      tool_step tools decodeArgs s = some
        { messages := some (s.messages ++
            (pre.filterMap (resolveCall tools decodeArgs)
              ++ ((resolveCall tools decodeArgs c).toList
                ++ post.filterMap (resolveCall tools decodeArgs))))
          current_tool_calls := some none
          session_id := some s.session_id }) := by
  constructor
  · intro c t hdecode hfind
    simp [resolveCall, hdecode, hfind]
  · intro s pre post c hc
    simp only [tool_step, hc, Option.some.injEq]
    rw [List.filterMap_append, List.filterMap_cons]
    cases hr : resolveCall tools decodeArgs c <;> simp

/-- C7 witness: a concrete call with unparseable arguments resolved by
invoking the configured tool on the empty argument set, and the step at a
concrete state holding that call. -/
theorem claim_c7_witness :
    resolveCall [toolSearch] decode0 callA =
      some (Message.tool (toolSearch.run []) callA.id callA.function.name) ∧
    tool_step [toolSearch] decode0 sWith = some
      { messages := some (sWith.messages ++
          (List.filterMap (resolveCall [toolSearch] decode0) []
            ++ ((resolveCall [toolSearch] decode0 callA).toList
              ++ List.filterMap (resolveCall [toolSearch] decode0) [])))
        current_tool_calls := some none
        session_id := some sWith.session_id } :=
  ⟨(claim_c7 [toolSearch] decode0).1 callA toolSearch rfl rfl,
   (claim_c7 [toolSearch] decode0).2 sWith [] [] callA rfl⟩

/-- C8: a pending call whose tool name matches no configured tool resolves
to no entry; the step still returns an update whenever the pending field
holds a list; and when the id of the unmatched call is carried by no other
pending call, no tool-role entry with that id appears among the produced
entries. -/
theorem claim_c8 (tools : List Tool) (decodeArgs : ArgsDecoder) :
    (∀ c : ToolCall, tools.find? (fun t2 => t2.name == c.function.name) = none →
      resolveCall tools decodeArgs c = none) ∧
    (∀ (s : AgentState) (calls : List ToolCall),
      s.current_tool_calls = some calls →
      (tool_step tools decodeArgs s).isSome = true) ∧
    (∀ (calls : List ToolCall) (c : ToolCall) (content name2 : String),
      c ∈ calls →
      tools.find? (fun t2 => t2.name == c.function.name) = none →
      (∀ c2 ∈ calls, c2.id = c.id → c2 = c) →
      Message.tool content c.id name2 ∉
        calls.filterMap (resolveCall tools decodeArgs)) := by
  refine ⟨?_, ?_, ?_⟩
  · intro c hfind
    simp [resolveCall, hfind]
  · intro s calls hc
    simp [tool_step, hc]
  · intro calls c content name2 _ hfind huniq hmem
    obtain ⟨c2, hc2mem, hc2⟩ := List.mem_filterMap.mp hmem
    obtain ⟨t, hfind2, hmsg⟩ := resolveCall_eq_some tools decodeArgs c2 _ hc2
    have hid : c2.id = c.id := by
      have := congrArg (fun msg => match msg with
        | Message.tool _ tool_call_id _ => tool_call_id
        | _ => "") hmsg
      simpa using this.symm
    have hceq : c2 = c := huniq c2 hc2mem hid
    rw [hceq] at hfind2
    rw [hfind] at hfind2
    exact absurd hfind2 (by simp)

/-- C8 witness: a concrete pending list holding a matched call and an
unmatched call with a distinct id; the unmatched call resolves to nothing,
the step still returns an update, and no produced entry carries the
unmatched id. -/
theorem claim_c8_witness :
    resolveCall [toolSearch] decode0 callB = none ∧
    (tool_step [toolSearch] decode0 sWith).isSome = true ∧
    Message.tool "res" callB.id "search" ∉
      [callA, callB].filterMap (resolveCall [toolSearch] decode0) :=
  ⟨(claim_c8 [toolSearch] decode0).1 callB rfl,
   (claim_c8 [toolSearch] decode0).2.1 sWith [callA] rfl,
   (claim_c8 [toolSearch] decode0).2.2 [callA, callB] callB "res" "search"
     (by decide) rfl (by decide)⟩

/-- C9: each of the three step functions includes in its returned partial
update a session-id key equal to the session id of its input state, and
consequently along any completed execution the session id of the final
state equals that of the initial state. -/
theorem claim_c9 (llm : LLMClient) (tools : List Tool) (decodeArgs : ArgsDecoder) :
    (∀ s : AgentState, (prepare_messages_step s).session_id = some s.session_id) ∧
    (∀ s : AgentState, (llm_step llm s).session_id = some s.session_id) ∧
    (∀ (s : AgentState) (u : StateUpdate), tool_step tools decodeArgs s = some u →
      u.session_id = some s.session_id) ∧
    (∀ (fuel : Nat) (node : Node) (s : AgentState)
      (h : List (String × AgentState)) (r : Run),
      execGraph llm tools decodeArgs fuel node s h = ExecResult.ok r →
      r.final_state.session_id = s.session_id) := by
  refine ⟨fun _ => rfl, fun _ => rfl, ?_, execGraph_session llm tools decodeArgs⟩
  intro s u h
  exact stepFn_session llm tools decodeArgs Node.tool_executor s u h
    (by simp) (by simp)

/-- C9 witness: the tool step update at a concrete state carries the input
session id, and a concrete completed run preserves the initial session id. -/
theorem claim_c9_witness :
    (StateUpdate.session_id
      { messages := some (sWith.messages ++ [callA].filterMap (resolveCall [toolSearch] decode0))
        current_tool_calls := some none
        session_id := some sWith.session_id }) = some sWith.session_id ∧
    runU.final_state.session_id = sInit0.session_id :=
  ⟨(claim_c9 llmPlain [toolSearch] decode0).2.2.1 sWith _ rfl,
   (claim_c9 llmU [] decode0).2.2.2 5 Node.entry sInit0 [] runU rfl⟩

/-- C10: the model-invocation step stores in the pending-tool-calls field
either the absent value or a non-empty list (an empty or absent tool-call
list from the model is normalized to the absent value); the router sends
execution to the tool-execution step only when that field holds a non-empty
list; and therefore the graph executor never hits the failure of the tool step on
an absent value: no execution, from any node, state and fuel, ever yields
the step-failure outcome. -/
theorem claim_c10 (llm : LLMClient) (tools : List Tool) (decodeArgs : ArgsDecoder) :
    (∀ (s : AgentState) (l : List ToolCall),
      (llm_step llm s).current_tool_calls = some (some l) → l ≠ []) ∧
    (∀ s : AgentState, check_tool_calls s = Node.tool_executor →
      ∃ l, s.current_tool_calls = some l ∧ l ≠ []) ∧
    (∀ (fuel : Nat) (node : Node) (s : AgentState)
      (h : List (String × AgentState)),
      execGraph llm tools decodeArgs fuel node s h ≠ ExecResult.stepError) := by
  refine ⟨?_, ?_, execGraph_never_stepError llm tools decodeArgs⟩
  · intro s l h
    cases htc : (llm s.messages).tool_calls with
    | none => simp [llm_step, htc, normalizedCalls] at h
    | some l2 =>
        simp only [llm_step, htc, normalizedCalls, Option.some.injEq] at h
        by_cases he : l2.isEmpty = true
        · rw [if_pos he] at h; exact absurd h (by simp)
        · rw [if_neg he] at h
          simp only [Option.some.injEq] at h
          subst h
          intro hnil
          rw [hnil] at he
          exact he rfl
  · intro s h
    cases hc : s.current_tool_calls with
    | none => simp [check_tool_calls, hc] at h
    | some l =>
        simp only [check_tool_calls, hc] at h
        by_cases he : l.isEmpty = true
        · rw [if_pos he] at h; exact absurd h (by simp)
        · refine ⟨l, rfl, ?_⟩
          intro hnil
          rw [hnil] at he
          exact he rfl

/-- C10 witness: a concrete model step producing one pending call yields a
non-empty list, the router at a concrete state with a pending call proves
the field non-empty, and a concrete execution is not a step failure. -/
theorem claim_c10_witness :
    [callA] ≠ [] ∧
    (∃ l, sWith.current_tool_calls = some l ∧ l ≠ []) ∧
    execGraph llmT [toolSearch] decode0 3 Node.entry sInit0 [] ≠ ExecResult.stepError :=
  ⟨(claim_c10 llmT [toolSearch] decode0).1 sInit0 [callA] rfl,
   (claim_c10 llmT [toolSearch] decode0).2.1 sWith rfl,
   (claim_c10 llmT [toolSearch] decode0).2.2 3 Node.entry sInit0 []⟩

end UdaPlay
